import Mathlib

/-!
Verification development for the health-report extraction/reconciliation
pipeline.  The definitions below are a shallow embedding of the Python
source: `app/pdf/parser.py` (candidate scanner, name normalizer, oracle
payload builder), `app/pdf/routes.py` (`extract_parameters`, the
reconciliation engine and mirror sync), `app/admin/routes.py`
(approve/reject endpoints) and `celery_worker.py` (background extraction
task).  Machine state (PostgreSQL rows, the DynamoDB mirror) is modelled
with explicit lists; each definition's doc comment names the source
location it embeds.
-/

namespace Foxo

/-- ASCII whitespace as recognised by Python `str.strip` / `str.split`
(space, tab, newline, carriage return, vertical tab, form feed). -/
def isPySpace (c : Char) : Bool :=
  c == ' ' || c == '\t' || c == '\n' || c == '\r' ||
  c == Char.ofNat 11 || c == Char.ofNat 12

/-- Python `str.strip()` on the character list: drop whitespace from both
ends. -/
def stripChars (l : List Char) : List Char :=
  ((l.dropWhile isPySpace).reverse.dropWhile isPySpace).reverse

/-- Python `str.strip()`. -/
def stripName (s : String) : String :=
  String.mk (stripChars s.toList)

/-- Python `str.lower()` (ASCII case mapping, which is all the pipeline's
data uses). -/
def pyLower (s : String) : String :=
  String.mk (s.toList.map Char.toLower)

/-- Characters kept by the normalizer after lowercasing: `[a-z0-9]`. -/
def keepAlnum (c : Char) : Bool :=
  c.isLower || c.isDigit

/-- The normalizer on character lists: lowercase, then strip every
character outside `[a-z0-9]`. -/
def normChars (l : List Char) : List Char :=
  (l.map Char.toLower).filter keepAlnum

/-- `app/pdf/parser.py`, `normalize_parameter_name`: lowercase the name and
remove all non-alphanumeric characters (`re.sub(r'[^a-z0-9]', '', name.lower())`). -/
def normalize_parameter_name (name : String) : String :=
  String.mk (normChars name.toList)

/-- Python `str.split()` with no argument: split on runs of whitespace,
discarding empty pieces.  `acc` holds the current word reversed. -/
def splitWordsAux : List Char → List Char → List String
  | [], acc => if acc.isEmpty then [] else [String.mk acc.reverse]
  | c :: cs, acc =>
    if isPySpace c then
      if acc.isEmpty then splitWordsAux cs []
      else String.mk acc.reverse :: splitWordsAux cs []
    else splitWordsAux cs (c :: acc)

/-- Python `str.split()`. -/
def pySplit (s : String) : List String :=
  splitWordsAux s.toList []

/-- The fixed disqualifying set of generic adjectives from
`is_valid_parameter_name` in `app/pdf/parser.py`. -/
def disqualifiers : List String :=
  ["high", "borderline", "normal", "desirable", "above", "below", "ref", "method"]

/-- `app/pdf/parser.py`, `is_valid_parameter_name`: the name must split into
at least two words and fewer than half of the words may be generic
adjectives (`count_generic < len(words) / 2`, i.e. `2 * count_generic < len(words)`). -/
def is_valid_parameter_name (name_str : String) : Bool :=
  let words := pySplit name_str
  if words.length < 2 then false
  else
    let count_generic := (words.filter (fun w => disqualifiers.contains (pyLower w))).length
    decide (2 * count_generic < words.length)

/-- Character class of the regex `name` group in
`filter_health_parameters_from_text`: letters, digits, parentheses, dot,
apostrophe, degree sign, whitespace, hyphen and slash. -/
def isNameChar (c : Char) : Bool :=
  c.isAlpha || c.isDigit || c == '(' || c == ')' || c == '.' || c == '\'' ||
  c == '°' || c == '-' || c == '/' || isPySpace c

/-- Character class of the regex `unit` group: `[A-Za-z/%]`. -/
def isUnitChar (c : Char) : Bool :=
  c.isAlpha || c == '/' || c == '%'

/-- Matches the tail of the scanner regex after the (lazy) name group:
`\s*[:\-]?\s*(?P<value>\d+(?:\.\d+)?)\s*(?P<unit>[A-Za-z/%]+)`.
Returns the verbatim value text, the unit token, and the unconsumed rest.
The greedy sub-parts of this tail never need backtracking: dropping
characters from `\d+`, from `(\.\d+)?` or from `\s*` always leaves a digit,
a dot or whitespace in front of the unit class, which can match none of
them. -/
def matchRest (l : List Char) : Option (String × String × List Char) :=
  let l1 := l.dropWhile isPySpace
  let l2 := match l1 with
            | c :: cs => if c == ':' || c == '-' then cs else l1
            | [] => l1
  let l3 := l2.dropWhile isPySpace
  let intPart := l3.takeWhile Char.isDigit
  let l4 := l3.dropWhile Char.isDigit
  if intPart.isEmpty then none
  else
    let fracAndRest : List Char × List Char :=
      match l4 with
      | '.' :: ds =>
        let f := ds.takeWhile Char.isDigit
        if f.isEmpty then ([], l4) else ('.' :: f, ds.dropWhile Char.isDigit)
      | _ => ([], l4)
    let l6 := fracAndRest.2.dropWhile isPySpace
    let unitPart := l6.takeWhile isUnitChar
    if unitPart.isEmpty then none
    else some (String.mk (intPart ++ fracAndRest.1), String.mk unitPart, l6.dropWhile isUnitChar)

/-- The lazy name group `(?P<name>...+?)` over the name character class:
take name characters one at a time (shortest first, at least one) and after each
extension try `matchRest`.  Returns name, value, unit and the rest of the
text after the whole match. -/
def matchName : List Char → List Char → Option (String × String × String × List Char)
  | _, [] => none
  | acc, c :: cs =>
    if isNameChar c then
      match matchRest cs with
      | some (v, u, rem) => some (String.mk (c :: acc).reverse, v, u, rem)
      | none => matchName (c :: acc) cs
    else none

/-- `re.finditer` over the text: attempt a match at each position from the
left; on success emit the groups and continue after the match.  The fuel
argument bounds the recursion (every step consumes at least one character). -/
def scanAux : Nat → List Char → List (String × String × String)
  | 0, _ => []
  | _, [] => []
  | fuel + 1, c :: cs =>
    match matchName [] (c :: cs) with
    | some (n, v, u, rem) => (n, v, u) :: scanAux fuel rem
    | none => scanAux fuel cs

/-- All matches of the scanner regex in the text, in order. -/
def scanMatches (s : String) : List (String × String × String) :=
  scanAux s.toList.length s.toList

/-- Details stored for one scanned candidate: verbatim value text and unit
token, exactly the two keys `filter_health_parameters_from_text` stores. -/
structure ScanDetails where
  value : String
  unit : String
deriving DecidableEq, Repr

/-- Python dict assignment `extracted[k] = v`: replace the entry in place
if the key is present, otherwise append (insertion order preserved). -/
def dictInsert (l : List (String × ScanDetails)) (k : String) (v : ScanDetails) :
    List (String × ScanDetails) :=
  if l.any (fun e => e.1 == k) then
    l.map (fun e => if e.1 == k then (k, v) else e)
  else l ++ [(k, v)]

/-- One iteration of the loop in `filter_health_parameters_from_text`:
strip and lowercase the raw name, skip it unless `is_valid_parameter_name`
accepts it, then store the details under the normalized key when both the
value and the unit are non-empty. -/
def filterStep (acc : List (String × ScanDetails)) (m : String × String × String) :
    List (String × ScanDetails) :=
  let candidate_name_raw := pyLower (stripName m.1)
  let normalized_name := normalize_parameter_name candidate_name_raw
  if !is_valid_parameter_name candidate_name_raw then acc
  else if !(m.2.1 == "") && !(m.2.2 == "") then
    dictInsert acc normalized_name ⟨m.2.1, m.2.2⟩
  else acc

/-- `app/pdf/parser.py`, `filter_health_parameters_from_text`: run the
regex over the combined text and build the dictionary of normalized name
to value/unit details. -/
def filter_health_parameters_from_text (text : String) : List (String × ScanDetails) :=
  (scanMatches text).foldl filterStep []

/-- One item of the oracle request payload: candidate key and, when the
details carry a unit, the unit — never the measured value. -/
structure PayloadItem where
  name : String
  unit : String
deriving DecidableEq, Repr

/-- `app/pdf/parser.py`, `validate_health_parameters_with_openai`, payload
construction: for each extracted key emit `{"name": key}` plus the unit
taken from the details; the raw value is never read. -/
def params_for_validation (extracted : List (String × ScanDetails)) : List PayloadItem :=
  extracted.map (fun kd => { name := kd.1, unit := kd.2.unit })

/-- `app/db/models.py`, `HealthParameterStatus`. -/
inductive HPStatus
  | pending
  | approved
  | rejected
deriving DecidableEq, Repr

/-- `app/db/models.py`, `HealthParameter` (the columns the pipeline reads
or writes). -/
structure HealthParameter where
  id : Nat
  report_id : Nat
  parameter_name : String
  value : Option String
  unit : Option String
  reference_range : Option String
  method : Option String
  status : HPStatus
  action_timestamp : Option Nat
  approved_by : Option Nat
  remarks : Option String
deriving DecidableEq, Repr

/-- `app/db/models.py`, `Report` (the columns `extract_parameters` reads). -/
structure Report where
  id : Nat
  client_id : Nat
  report_unique_id : String
deriving DecidableEq, Repr

/-- Normalized key of a stored record's display name. -/
def nname (p : HealthParameter) : String :=
  normalize_parameter_name p.parameter_name

/-- Details attached to one oracle-validated name (`valid_params[name]` in
`extract_parameters`): the scanner's details dict, whose optional keys are
read with `details.get`. -/
structure ValidatedDetails where
  value : Option String
  unit : Option String
  reference_range : Option String
  method : Option String
deriving DecidableEq, Repr

/-- Replace the element at one position, leaving the rest of the list
unchanged (models an in-place update of one ORM row object). -/
def modifyIdx : List α → Nat → (α → α) → List α
  | [], _, _ => []
  | a :: as, 0, f => f a :: as
  | a :: as, n + 1, f => a :: modifyIdx as n f

/-- Index bookkeeping for a last-match search, offset by `n`. -/
def findLastIdxAux (pred : HealthParameter → Bool) : List HealthParameter → Nat → Option Nat
  | [], _ => none
  | p :: ps, n =>
    match findLastIdxAux pred ps (n + 1) with
    | some j => some j
    | none => if pred p then some n else none

/-- `extract_parameters`, line 122: the dict
`{normalize(p.parameter_name): p for p in all_params if p.report_id == report.id}`.
A dict comprehension keeps the last matching row, so this returns the
position of the last record of the target report whose normalized name is
`k`. -/
def existingIdxForReport (db : List HealthParameter) (R : Nat) (k : String) : Option Nat :=
  findLastIdxAux (fun p => p.report_id == R && nname p == k) db 0

/-- `extract_parameters`, line 103: the set
`{(normalize(p.parameter_name), p.report_id) for p in all_params}`. -/
def initAllSet (db : List HealthParameter) : List (String × Nat) :=
  db.map (fun p => (nname p, p.report_id))

/-- Largest primary key in the store; freshly inserted rows get keys above
it. -/
def maxId (db : List HealthParameter) : Nat :=
  (db.map (fun p => p.id)).foldr Nat.max 0

/-- The row inserted by `extract_parameters`, lines 148-157: attached to
the current report, display name `validated_name.strip()`, the scanner's
raw details, status `pending`. -/
def mkNewParam (R : Nat) (newId : Nat) (v : String × ValidatedDetails) : HealthParameter :=
  { id := newId
    report_id := R
    parameter_name := stripName v.1
    value := v.2.value
    unit := v.2.unit
    reference_range := v.2.reference_range
    method := v.2.method
    status := HPStatus.pending
    action_timestamp := none
    approved_by := none
    remarks := none }

/-- Mutable state of the reconciliation loop: `cur` is `all_params` with
in-place updates applied, `inserted` the rows added with `db.add`,
`all_set` the global dedup set, `updates` the number of row updates. -/
structure ReconState where
  cur : List HealthParameter
  inserted : List HealthParameter
  all_set : List (String × Nat)
  updates : Nat
deriving Repr

/-- One iteration of the reconciliation loop in `extract_parameters`,
lines 129-159: look the normalized name up among the current report's
rows; a `rejected` row is flipped to `pending` and (re)assigned to this
report; otherwise, if the name exists in no report at all, a new `pending`
row is inserted and recorded in the dedup set. -/
def reconStep (R : Nat) (db0 : List HealthParameter) (base : Nat)
    (st : ReconState) (v : String × ValidatedDetails) : ReconState :=
  let k := normalize_parameter_name v.1
  let already := st.all_set.any (fun a => a.1 == k)
  let doInsert : ReconState :=
    { st with
      inserted := st.inserted ++ [mkNewParam R (base + st.inserted.length) v]
      all_set := (k, R) :: st.all_set }
  match existingIdxForReport db0 R k with
  | some idx =>
    match st.cur[idx]? with
    | some q =>
      if q.status == HPStatus.rejected then
        { st with
          cur := modifyIdx st.cur idx
            (fun p => { p with status := HPStatus.pending, report_id := R })
          updates := st.updates + 1 }
      else if !already then doInsert else st
    | none => if !already then doInsert else st
  | none => if !already then doInsert else st

/-- `extract_parameters`, lines 99-161: the whole reconciliation loop over
the validated names, started from the freshly loaded `all_params`. -/
def reconcile (R : Nat) (valid : List (String × ValidatedDetails))
    (db : List HealthParameter) : ReconState :=
  valid.foldl (reconStep R db (maxId db + 1)) ⟨db, [], initAllSet db, 0⟩

/-- `extract_parameters`, lines 115-117: every validated name's normalized
key already has a row attached to this report (set inclusion
`validated_norms.issubset(existing_report_param_names)`). -/
def alreadyCheck (repId : Nat) (valid : List (String × ValidatedDetails))
    (db : List HealthParameter) : Bool :=
  (valid.map (fun v => v.1)).all (fun n =>
    ((db.filter (fun p => p.report_id == repId)).map nname).contains
      (normalize_parameter_name n))

/-- `extract_parameters`, lines 182-185: the dict
`{normalize(p.parameter_name): p for p in all_params}` (last row wins),
looked up at one key. -/
def normMapLookup (l : List HealthParameter) (k : String) : Option HealthParameter :=
  (l.filter (fun p => nname p == k)).getLast?

/-- `extract_parameters`, lines 187-199: the mirror status string for one
validated name — `"approved"` exactly when the record found in the norm
map is approved, `"pending"` otherwise (including when no record exists). -/
def mirrorStatus (cur : List HealthParameter) (vn : String) : String :=
  match normMapLookup cur (normalize_parameter_name vn) with
  | some p => if p.status == HPStatus.approved then "approved" else "pending"
  | none => "pending"

/-- The `parameters` list of the DynamoDB document: one
`{parameter_name, status}` pair per validated name, in order. -/
def mirrorPairs (cur : List HealthParameter) (vnames : List String) :
    List (String × String) :=
  vnames.map (fun vn => (vn, mirrorStatus cur vn))

/-- Result of one call of the `extract_parameters` endpoint.
`reportNotFound` models the 404 `HTTPException`, `noParameters` the 400
`HTTPException` raised when the scanner found nothing, `alreadyExtracted`
the fast-path `{"message": "Health Parameter Already Extracted"}` response,
and `complete` the final response with its approved/pending name lists. -/
inductive ExtractResult
  | reportNotFound
  | noParameters
  | alreadyExtracted
  | complete (approved pending : List String)
deriving DecidableEq, Repr

/-- Whether a result models a raised `HTTPException` (an error path rather
than a normal response). -/
def isErrorResult : ExtractResult → Bool
  | ExtractResult.reportNotFound => true
  | ExtractResult.noParameters => true
  | _ => false

/-- Full outcome of one call: response, durable store, mirror store
(report external id to parameter pair list), and the number of durable
row writes (updates plus inserts) the call performed. -/
structure ExtractOutcome where
  result : ExtractResult
  db : List HealthParameter
  mirror : List (String × List (String × String))
  writes : Nat
deriving DecidableEq, Repr

/-- Mirror store lookup by report external id. -/
def mirrorGet (m : List (String × List (String × String))) (k : String) :
    Option (List (String × String)) :=
  (m.find? (fun e => e.1 == k)).map (fun e => e.2)

/-- `app/pdf/routes.py`, `extract_parameters`: look the report up (404 if
absent), fail with 400 when the scanner extracted nothing, short-circuit
with the fixed message when every validated key already has a row on this
report, otherwise run the reconciliation loop, commit, build the mirror
document from the validated names and the (mutated) `all_params` rows,
upsert it with `put_item`, and answer with the approved/pending split of
the document.  The oracle's output `valid` is a parameter: the oracle is
an external collaborator. -/
def extract_parameters (reports : List Report) (report_unique_id : String)
    (extracted : List (String × ScanDetails))
    (valid : List (String × ValidatedDetails))
    (db : List HealthParameter)
    (mirror : List (String × List (String × String))) : ExtractOutcome :=
  match reports.find? (fun r => r.report_unique_id == report_unique_id) with
  | none => ⟨ExtractResult.reportNotFound, db, mirror, 0⟩
  | some rep =>
    if extracted.isEmpty then ⟨ExtractResult.noParameters, db, mirror, 0⟩
    else if alreadyCheck rep.id valid db then
      ⟨ExtractResult.alreadyExtracted, db, mirror, 0⟩
    else
      let st := reconcile rep.id valid db
      let pairs := mirrorPairs st.cur (valid.map (fun v => v.1))
      let approved := (pairs.filter (fun x => x.2 == "approved")).map (fun x => x.1)
      let pending := (pairs.filter (fun x => x.2 == "pending")).map (fun x => x.1)
      ⟨ExtractResult.complete approved pending,
       st.cur ++ st.inserted,
       (report_unique_id, pairs) :: mirror.filter (fun e => !(e.1 == report_unique_id)),
       st.updates + st.inserted.length⟩

/-- Position of the first row with the given primary key
(`db.query(HealthParameter).filter(HealthParameter.id == param_id).first()`). -/
def findIdxById : List HealthParameter → Nat → Nat → Option Nat
  | [], _, _ => none
  | p :: ps, pid, n => if p.id == pid then some n else findIdxById ps pid (n + 1)

/-- `app/admin/routes.py`, `approve_parameter`: 404 (`none`) when the id is
unknown; otherwise set status `approved`, the action timestamp, the
approving admin and the remarks — with no guard on the previous status. -/
def approve_parameter (db : List HealthParameter) (param_id : Nat)
    (adminId : Nat) (now : Nat) (remarks : Option String) :
    Option (List HealthParameter) :=
  match findIdxById db param_id 0 with
  | none => none
  | some i => some (modifyIdx db i (fun p =>
      { p with status := HPStatus.approved, action_timestamp := some now,
               approved_by := some adminId, remarks := remarks }))

/-- `app/admin/routes.py`, `reject_parameter`: 404 (`none`) when the id is
unknown; otherwise set status `rejected`, the action timestamp and the
remarks (the stored approver is left as it was) — with no guard on the
previous status. -/
def reject_parameter (db : List HealthParameter) (param_id : Nat)
    (now : Nat) (remarks : Option String) : Option (List HealthParameter) :=
  match findIdxById db param_id 0 with
  | none => none
  | some i => some (modifyIdx db i (fun p =>
      { p with status := HPStatus.rejected, action_timestamp := some now,
               remarks := remarks }))

/-- `celery_worker.py`, `extract_pdf_task`, lines 46-66: for each extracted
candidate, skip it when a row with the *verbatim same* `parameter_name`
string exists in pending/approved status (string equality, not normalized
comparison), otherwise insert a new pending row for this report. -/
def extract_pdf_task_params (db : List HealthParameter) (reportId : Nat)
    (base : Nat) (extracted : List (String × ScanDetails)) : List HealthParameter :=
  extracted.foldl (fun cur kd =>
    let existing := cur.any (fun p =>
      p.parameter_name == kd.1 &&
      (p.status == HPStatus.pending || p.status == HPStatus.approved))
    if existing then cur
    else cur ++ [{ id := base + cur.length
                   report_id := reportId
                   parameter_name := kd.1
                   value := some kd.2.value
                   unit := some kd.2.unit
                   reference_range := none
                   method := none
                   status := HPStatus.pending
                   action_timestamp := none
                   approved_by := none
                   remarks := none }]) db

/-! ### Helper lemmas about the list primitives -/

theorem modifyIdx_length (l : List α) (i : Nat) (f : α → α) :
    (modifyIdx l i f).length = l.length := by
  induction l generalizing i with
  | nil => rfl
  | cons a as ih =>
    cases i with
    | zero => rfl
    | succ n => simp [modifyIdx, ih]

theorem modifyIdx_get_self (l : List α) (i : Nat) (f : α → α) :
    (modifyIdx l i f)[i]? = l[i]?.map f := by
  induction l generalizing i with
  | nil => cases i <;> simp [modifyIdx]
  | cons a as ih =>
    cases i with
    | zero => simp [modifyIdx]
    | succ n => simpa [modifyIdx] using ih n

theorem modifyIdx_get_ne (l : List α) (i j : Nat) (f : α → α) (h : i ≠ j) :
    (modifyIdx l i f)[j]? = l[j]? := by
  induction l generalizing i j with
  | nil => cases i <;> simp [modifyIdx]
  | cons a as ih =>
    cases i with
    | zero =>
      cases j with
      | zero => exact absurd rfl h
      | succ m => simp [modifyIdx]
    | succ n =>
      cases j with
      | zero => simp [modifyIdx]
      | succ m =>
        simpa [modifyIdx] using ih n m (fun hnm => h (by simp [hnm]))

theorem modifyIdx_map (l : List α) (i : Nat) (f : α → α) (g : α → β)
    (hfg : ∀ a, g (f a) = g a) :
    (modifyIdx l i f).map g = l.map g := by
  induction l generalizing i with
  | nil => rfl
  | cons a as ih =>
    cases i with
    | zero => simp [modifyIdx, hfg]
    | succ n => simp [modifyIdx, ih]

theorem findLastIdxAux_sound (pred : HealthParameter → Bool)
    (l : List HealthParameter) (n j : Nat)
    (h : findLastIdxAux pred l n = some j) :
    ∃ i p, j = n + i ∧ l[i]? = some p ∧ pred p = true := by
  induction l generalizing n with
  | nil => simp [findLastIdxAux] at h
  | cons a as ih =>
    rw [findLastIdxAux] at h
    cases hrec : findLastIdxAux pred as (n + 1) with
    | some j' =>
      rw [hrec] at h
      obtain rfl : j' = j := by injection h
      obtain ⟨i, p, hji, hget, hpred⟩ := ih (n + 1) hrec
      exact ⟨i + 1, p, by omega, by simpa using hget, hpred⟩
    | none =>
      rw [hrec] at h
      by_cases hp : pred a = true
      · simp [hp] at h
        exact ⟨0, a, by omega, by simp, hp⟩
      · simp [hp] at h

theorem existingIdxForReport_sound (db : List HealthParameter) (R : Nat)
    (k : String) (i : Nat)
    (h : existingIdxForReport db R k = some i) :
    ∃ p, db[i]? = some p ∧ p.report_id = R ∧ nname p = k := by
  obtain ⟨i', p, hi, hget, hpred⟩ := findLastIdxAux_sound _ db 0 i h
  refine ⟨p, by simpa [hi] using hget, ?_, ?_⟩
  · have := (Bool.and_eq_true _ _).mp hpred
    exact beq_iff_eq.mp this.1
  · have := (Bool.and_eq_true _ _).mp hpred
    exact beq_iff_eq.mp this.2

/-! ### Characterization of the reconciliation loop -/

theorem reconStep_cur_length (R : Nat) (db0 : List HealthParameter) (base : Nat)
    (st : ReconState) (v : String × ValidatedDetails) :
    (reconStep R db0 base st v).cur.length = st.cur.length := by
  cases hidx : existingIdxForReport db0 R (normalize_parameter_name v.1) with
  | none =>
    by_cases h : st.all_set.any (fun a => a.1 == normalize_parameter_name v.1) <;>
      simp [reconStep, hidx, h]
  | some idx =>
    cases hq : st.cur[idx]? with
    | none =>
      by_cases h : st.all_set.any (fun a => a.1 == normalize_parameter_name v.1) <;>
        simp [reconStep, hidx, hq, h]
    | some q =>
      by_cases hs : q.status == HPStatus.rejected
      · simp [reconStep, hidx, hq, hs, modifyIdx_length]
      · by_cases h : st.all_set.any (fun a => a.1 == normalize_parameter_name v.1) <;>
          simp [reconStep, hidx, hq, hs, h]

theorem reconStep_cur_get (R : Nat) (db0 : List HealthParameter) (base : Nat)
    (st : ReconState) (v : String × ValidatedDetails) (i : Nat) (q : HealthParameter)
    (hq : st.cur[i]? = some q) :
    (reconStep R db0 base st v).cur[i]? =
      some (if q.status = HPStatus.rejected ∧
               existingIdxForReport db0 R (normalize_parameter_name v.1) = some i
            then { q with status := HPStatus.pending, report_id := R } else q) := by
  cases hidx : existingIdxForReport db0 R (normalize_parameter_name v.1) with
  | none =>
    have hcond : ¬ (q.status = HPStatus.rejected ∧
        existingIdxForReport db0 R (normalize_parameter_name v.1) = some i) := by
      rintro ⟨-, h⟩; rw [hidx] at h; cases h
    by_cases h : st.all_set.any (fun a => a.1 == normalize_parameter_name v.1) <;>
      simp [reconStep, hidx, h, hq, hcond]
  | some idx =>
    by_cases hii : idx = i
    · subst hii
      by_cases hs : q.status = HPStatus.rejected
      · have hs' : (q.status == HPStatus.rejected) = true := beq_iff_eq.mpr hs
        have hget := modifyIdx_get_self st.cur idx
          (fun p => { p with status := HPStatus.pending, report_id := R })
        simp only [reconStep, hidx, hq, hs', if_true]
        rw [hget, hq]
        simp [hs, hidx]
      · have hs' : (q.status == HPStatus.rejected) = false := by
          simp [hs]
        have hcond : ¬ (q.status = HPStatus.rejected ∧
            existingIdxForReport db0 R (normalize_parameter_name v.1) = some idx) := by
          rintro ⟨h1, -⟩; exact hs h1
        by_cases h : st.all_set.any (fun a => a.1 == normalize_parameter_name v.1) <;>
          simp [reconStep, hidx, hq, hs', h, hcond, hs]
    · have hcond : ¬ (q.status = HPStatus.rejected ∧
          existingIdxForReport db0 R (normalize_parameter_name v.1) = some i) := by
        rintro ⟨-, h⟩; rw [hidx] at h; exact hii (by injection h)
      cases hq' : st.cur[idx]? with
      | none =>
        by_cases h : st.all_set.any (fun a => a.1 == normalize_parameter_name v.1) <;>
          simp [reconStep, hidx, hq', h, hq, hcond, hii]
      | some q' =>
        by_cases hs : q'.status == HPStatus.rejected
        · have hget := modifyIdx_get_ne st.cur idx i
            (fun p => { p with status := HPStatus.pending, report_id := R }) hii
          simp only [reconStep, hidx, hq', hs, if_true]
          rw [hget, hq]
          simp [hcond, hii]
        · by_cases h : st.all_set.any (fun a => a.1 == normalize_parameter_name v.1) <;>
            simp [reconStep, hidx, hq', hs, h, hq, hcond, hii]

theorem reconFold_cur_get (R : Nat) (db0 : List HealthParameter) (base : Nat)
    (vs : List (String × ValidatedDetails)) (st : ReconState) (i : Nat)
    (q : HealthParameter) (hq : st.cur[i]? = some q) :
    (vs.foldl (reconStep R db0 base) st).cur[i]? =
      some (if q.status = HPStatus.rejected ∧
               ∃ v ∈ vs, existingIdxForReport db0 R (normalize_parameter_name v.1) = some i
            then { q with status := HPStatus.pending, report_id := R } else q) := by
  induction vs generalizing st q with
  | nil => rw [List.foldl_nil, hq]; simp
  | cons v vs ih =>
    have hstep := reconStep_cur_get R db0 base st v i q hq
    by_cases hc : q.status = HPStatus.rejected ∧
        existingIdxForReport db0 R (normalize_parameter_name v.1) = some i
    · rw [if_pos hc] at hstep
      have := ih (reconStep R db0 base st v)
        { q with status := HPStatus.pending, report_id := R } hstep
      rw [List.foldl_cons, this]
      rw [if_neg (by simp)]
      rw [if_pos ⟨hc.1, ⟨v, List.mem_cons_self v vs, hc.2⟩⟩]
    · rw [if_neg hc] at hstep
      have := ih (reconStep R db0 base st v) q hstep
      rw [List.foldl_cons, this]
      by_cases hr : q.status = HPStatus.rejected
      · have hv : existingIdxForReport db0 R (normalize_parameter_name v.1) ≠ some i :=
          fun h => hc ⟨hr, h⟩
        have hiff : (q.status = HPStatus.rejected ∧
            ∃ v' ∈ vs, existingIdxForReport db0 R (normalize_parameter_name v'.1) = some i) ↔
            (q.status = HPStatus.rejected ∧
            ∃ v' ∈ v :: vs, existingIdxForReport db0 R (normalize_parameter_name v'.1) = some i) := by
          constructor
          · rintro ⟨h1, v', hv', h2⟩
            exact ⟨h1, v', List.mem_cons_of_mem v hv', h2⟩
          · rintro ⟨h1, v', hv', h2⟩
            rcases List.mem_cons.mp hv' with rfl | hmem
            · exact absurd h2 hv
            · exact ⟨h1, v', hmem, h2⟩
        by_cases h2 : q.status = HPStatus.rejected ∧
            ∃ v' ∈ vs, existingIdxForReport db0 R (normalize_parameter_name v'.1) = some i
        · rw [if_pos h2, if_pos (hiff.mp h2)]
        · rw [if_neg h2, if_neg (fun h => h2 (hiff.mpr h))]
      · rw [if_neg (fun h => hr h.1), if_neg (fun h => hr h.1)]

theorem reconcile_cur_length (R : Nat) (valid : List (String × ValidatedDetails))
    (db : List HealthParameter) :
    (reconcile R valid db).cur.length = db.length := by
  rw [reconcile]
  generalize hst : (⟨db, [], initAllSet db, 0⟩ : ReconState) = st
  have hd : st.cur.length = db.length := by rw [← hst]
  clear hst
  induction valid generalizing st with
  | nil => simpa using hd
  | cons v vs ih =>
    rw [List.foldl_cons]
    exact ih _ (by rw [reconStep_cur_length]; exact hd)

theorem reconStep_cur_map (R : Nat) (db0 : List HealthParameter) (base : Nat)
    (st : ReconState) (v : String × ValidatedDetails) :
    (reconStep R db0 base st v).cur.map (fun p => p.parameter_name) =
      st.cur.map (fun p => p.parameter_name) := by
  cases hidx : existingIdxForReport db0 R (normalize_parameter_name v.1) with
  | none =>
    by_cases h : st.all_set.any (fun a => a.1 == normalize_parameter_name v.1) <;>
      simp [reconStep, hidx, h]
  | some idx =>
    cases hq : st.cur[idx]? with
    | none =>
      by_cases h : st.all_set.any (fun a => a.1 == normalize_parameter_name v.1) <;>
        simp [reconStep, hidx, hq, h]
    | some q =>
      by_cases hs : q.status == HPStatus.rejected
      · simp only [reconStep, hidx, hq, hs, if_true]
        exact modifyIdx_map _ _ _ _ (fun a => rfl)
      · by_cases h : st.all_set.any (fun a => a.1 == normalize_parameter_name v.1) <;>
          simp [reconStep, hidx, hq, hs, h]

theorem reconcile_cur_map (R : Nat) (valid : List (String × ValidatedDetails))
    (db : List HealthParameter) :
    (reconcile R valid db).cur.map (fun p => p.parameter_name) =
      db.map (fun p => p.parameter_name) := by
  rw [reconcile]
  generalize hst : (⟨db, [], initAllSet db, 0⟩ : ReconState) = st
  have hd : st.cur.map (fun p => p.parameter_name) = db.map (fun p => p.parameter_name) := by
    rw [← hst]
  clear hst
  induction valid generalizing st with
  | nil => simpa using hd
  | cons v vs ih =>
    rw [List.foldl_cons]
    exact ih _ (by rw [reconStep_cur_map]; exact hd)

theorem reconStep_all_set_mono (R : Nat) (db0 : List HealthParameter) (base : Nat)
    (st : ReconState) (v : String × ValidatedDetails) (x : String × Nat)
    (hx : x ∈ st.all_set) : x ∈ (reconStep R db0 base st v).all_set := by
  cases hidx : existingIdxForReport db0 R (normalize_parameter_name v.1) with
  | none =>
    by_cases h : st.all_set.any (fun a => a.1 == normalize_parameter_name v.1) <;>
      simp [reconStep, hidx, h, hx]
  | some idx =>
    cases hq : st.cur[idx]? with
    | none =>
      by_cases h : st.all_set.any (fun a => a.1 == normalize_parameter_name v.1) <;>
        simp [reconStep, hidx, hq, h, hx]
    | some q =>
      by_cases hs : q.status == HPStatus.rejected
      · simp [reconStep, hidx, hq, hs, hx]
      · by_cases h : st.all_set.any (fun a => a.1 == normalize_parameter_name v.1) <;>
          simp [reconStep, hidx, hq, hs, h, hx]

/-- What one step does to the inserted list and the dedup set: either it
leaves both unchanged, or it appends the new row for the processed name
and records its key — and in the latter case the dedup set contained no
entry for that normalized name. -/
theorem reconStep_inserted (R : Nat) (db0 : List HealthParameter) (base : Nat)
    (st : ReconState) (v : String × ValidatedDetails) :
    ((reconStep R db0 base st v).inserted = st.inserted ∧
      (reconStep R db0 base st v).all_set = st.all_set) ∨
    ((reconStep R db0 base st v).inserted =
        st.inserted ++ [mkNewParam R (base + st.inserted.length) v] ∧
      (reconStep R db0 base st v).all_set =
        (normalize_parameter_name v.1, R) :: st.all_set ∧
      st.all_set.any (fun a => a.1 == normalize_parameter_name v.1) = false) := by
  cases hidx : existingIdxForReport db0 R (normalize_parameter_name v.1) with
  | none =>
    by_cases h : st.all_set.any (fun a => a.1 == normalize_parameter_name v.1)
    · left; constructor <;> simp [reconStep, hidx, h]
    · right
      refine ⟨?_, ?_, Bool.eq_false_iff.mpr h⟩ <;> simp [reconStep, hidx, h]
  | some idx =>
    cases hq : st.cur[idx]? with
    | none =>
      by_cases h : st.all_set.any (fun a => a.1 == normalize_parameter_name v.1)
      · left; constructor <;> simp [reconStep, hidx, hq, h]
      · right
        refine ⟨?_, ?_, Bool.eq_false_iff.mpr h⟩ <;> simp [reconStep, hidx, hq, h]
    | some q =>
      by_cases hs : q.status == HPStatus.rejected
      · left; constructor <;> simp [reconStep, hidx, hq, hs]
      · by_cases h : st.all_set.any (fun a => a.1 == normalize_parameter_name v.1)
        · left; constructor <;> simp [reconStep, hidx, hq, hs, h]
        · right
          refine ⟨?_, ?_, Bool.eq_false_iff.mpr h⟩ <;> simp [reconStep, hidx, hq, hs, h]

/-- Rows inserted during the fold: each one either was already in the
state or is the freshly built row of some processed name whose normalized
key had, at the time, no entry in the dedup set — in particular none among
the keys of the preloaded rows. -/
theorem reconFold_inserted_mem (R : Nat) (db0 : List HealthParameter) (base : Nat)
    (vs : List (String × ValidatedDetails)) (st : ReconState)
    (hsub : ∀ x ∈ initAllSet db0, x ∈ st.all_set) :
    ∀ p ∈ (vs.foldl (reconStep R db0 base) st).inserted,
      p ∈ st.inserted ∨
      ∃ v ∈ vs, (∃ n, p = mkNewParam R n v) ∧
        ∀ q ∈ db0, nname q ≠ normalize_parameter_name v.1 := by
  induction vs generalizing st with
  | nil => intro p hp; exact Or.inl hp
  | cons v vs ih =>
    intro p hp
    rw [List.foldl_cons] at hp
    have hsub' : ∀ x ∈ initAllSet db0, x ∈ (reconStep R db0 base st v).all_set :=
      fun x hx => reconStep_all_set_mono R db0 base st v x (hsub x hx)
    rcases ih (reconStep R db0 base st v) hsub' p hp with hin | ⟨v', hv', hnew, hfresh⟩
    · rcases reconStep_inserted R db0 base st v with ⟨heq, -⟩ | ⟨heq, -, hfree⟩
      · rw [heq] at hin; exact Or.inl hin
      · rw [heq] at hin
        rcases List.mem_append.mp hin with hin | hin
        · exact Or.inl hin
        · right
          refine ⟨v, List.mem_cons_self v vs, ⟨base + st.inserted.length, by simpa using hin⟩, ?_⟩
          intro q hq hk
          have hmem : (nname q, q.report_id) ∈ st.all_set := by
            apply hsub
            simp only [initAllSet, List.mem_map]
            exact ⟨q, hq, rfl⟩
          have : st.all_set.any (fun a => a.1 == normalize_parameter_name v.1) = true := by
            rw [List.any_eq_true]
            exact ⟨(nname q, q.report_id), hmem, by simpa using hk⟩
          rw [hfree] at this
          cases this
    · exact Or.inr ⟨v', List.mem_cons_of_mem v hv', hnew, hfresh⟩

/-- Rows inserted by one reconciliation pass: each is the freshly built
pending row of some validated name whose normalized key had no record in
the preloaded store. -/
theorem reconcile_inserted_mem (R : Nat) (valid : List (String × ValidatedDetails))
    (db : List HealthParameter) :
    ∀ p ∈ (reconcile R valid db).inserted,
      ∃ v ∈ valid, (∃ n, p = mkNewParam R n v) ∧
        ∀ q ∈ db, nname q ≠ normalize_parameter_name v.1 := by
  intro p hp
  have := reconFold_inserted_mem R db (maxId db + 1) valid
    ⟨db, [], initAllSet db, 0⟩ (fun x hx => hx) p hp
  rcases this with hin | h
  · cases hin
  · exact h

theorem reconcile_inserted_pending (R : Nat) (valid : List (String × ValidatedDetails))
    (db : List HealthParameter) :
    ∀ p ∈ (reconcile R valid db).inserted, p.status = HPStatus.pending := by
  intro p hp
  obtain ⟨v, -, ⟨n, rfl⟩, -⟩ := reconcile_inserted_mem R valid db p hp
  rfl

/-! ### The normalizer ignores the whitespace removed by `strip` -/

theorem toList_mk (l : List Char) : (String.mk l).toList = l := rfl

theorem keepAlnum_toLower_of_space (c : Char) (h : isPySpace c = true) :
    keepAlnum (Char.toLower c) = false := by
  simp only [isPySpace, Bool.or_eq_true, beq_iff_eq] at h
  rcases h with ((((rfl | rfl) | rfl) | rfl) | rfl) | rfl <;> decide

theorem normChars_dropWhile (l : List Char) :
    normChars (l.dropWhile isPySpace) = normChars l := by
  induction l with
  | nil => rfl
  | cons c cs ih =>
    by_cases h : isPySpace c = true
    · rw [List.dropWhile_cons_of_pos h, ih]
      simp [normChars, keepAlnum_toLower_of_space c h]
    · rw [List.dropWhile_cons_of_neg h]

theorem normChars_reverse (l : List Char) :
    normChars l.reverse = (normChars l).reverse := by
  simp [normChars, List.filter_reverse, List.map_reverse]

theorem normChars_stripChars (l : List Char) :
    normChars (stripChars l) = normChars l := by
  rw [stripChars, normChars_reverse, normChars_dropWhile, normChars_reverse,
    List.reverse_reverse, normChars_dropWhile]

theorem normalize_stripName (s : String) :
    normalize_parameter_name (stripName s) = normalize_parameter_name s := by
  rw [normalize_parameter_name, normalize_parameter_name, stripName, toList_mk,
    normChars_stripChars]

theorem nname_mkNewParam (R n : Nat) (v : String × ValidatedDetails) :
    nname (mkNewParam R n v) = normalize_parameter_name v.1 := by
  rw [nname, mkNewParam]
  exact normalize_stripName v.1

/-! ### Global uniqueness of normalized keys is preserved -/

theorem map_nname_eq (l : List HealthParameter) :
    l.map nname = (l.map (fun p => p.parameter_name)).map normalize_parameter_name := by
  rw [List.map_map]
  rfl

/-- All normalized keys held by a reconciliation state, preloaded rows
first. -/
def stNames (st : ReconState) : List String :=
  st.cur.map nname ++ st.inserted.map nname

/-- The invariant carried through the loop: the keys are pairwise distinct
and every key is covered by an entry of the dedup set. -/
def stInv (st : ReconState) : Prop :=
  (stNames st).Nodup ∧ ∀ s ∈ stNames st, ∃ x ∈ st.all_set, x.1 = s

theorem reconStep_stInv (R : Nat) (db0 : List HealthParameter) (base : Nat)
    (st : ReconState) (v : String × ValidatedDetails) (h : stInv st) :
    stInv (reconStep R db0 base st v) := by
  have hcur : (reconStep R db0 base st v).cur.map nname = st.cur.map nname := by
    rw [map_nname_eq, map_nname_eq, reconStep_cur_map]
  rcases reconStep_inserted R db0 base st v with ⟨heq, hset⟩ | ⟨heq, hset, hfree⟩
  · have hn : stNames (reconStep R db0 base st v) = stNames st := by
      rw [stNames, stNames, hcur, heq]
    constructor
    · rw [hn]; exact h.1
    · intro s hs
      rw [hn] at hs
      obtain ⟨x, hx, hxs⟩ := h.2 s hs
      exact ⟨x, by rw [hset]; exact hx, hxs⟩
  · have hn : stNames (reconStep R db0 base st v) =
        stNames st ++ [normalize_parameter_name v.1] := by
      rw [stNames, stNames, hcur, heq, List.map_append, ← List.append_assoc]
      simp [nname_mkNewParam]
    have hnotin : normalize_parameter_name v.1 ∉ stNames st := by
      intro hmem
      obtain ⟨x, hx, hxs⟩ := h.2 _ hmem
      have : st.all_set.any (fun a => a.1 == normalize_parameter_name v.1) = true := by
        rw [List.any_eq_true]
        exact ⟨x, hx, by simpa using hxs⟩
      rw [hfree] at this
      cases this
    constructor
    · rw [hn, List.nodup_append]
      refine ⟨h.1, List.nodup_singleton _, ?_⟩
      intro a ha hb
      rw [List.mem_singleton] at hb
      exact hnotin (hb ▸ ha)
    · intro s hs
      rw [hn, List.mem_append, List.mem_singleton] at hs
      rcases hs with hs | rfl
      · obtain ⟨x, hx, hxs⟩ := h.2 s hs
        refine ⟨x, ?_, hxs⟩
        rw [hset]
        exact List.mem_cons_of_mem _ hx
      · refine ⟨(normalize_parameter_name v.1, R), ?_, rfl⟩
        rw [hset]
        exact List.mem_cons_self _ _

theorem reconcile_stInv (R : Nat) (valid : List (String × ValidatedDetails))
    (db : List HealthParameter) (h : (db.map nname).Nodup) :
    stInv (reconcile R valid db) := by
  rw [reconcile]
  generalize hst : (⟨db, [], initAllSet db, 0⟩ : ReconState) = st
  have hd : stInv st := by
    rw [← hst]
    constructor
    · simpa [stNames] using h
    · intro s hs
      simp only [stNames, List.map_nil, List.append_nil, List.mem_map] at hs
      obtain ⟨p, hp, rfl⟩ := hs
      refine ⟨(nname p, p.report_id), ?_, rfl⟩
      simp only [initAllSet, List.mem_map]
      exact ⟨p, hp, rfl⟩
  clear hst
  induction valid generalizing st with
  | nil => simpa using hd
  | cons v vs ih =>
    rw [List.foldl_cons]
    exact ih _ (reconStep_stInv R db (maxId db + 1) st v hd)

/-- The store after one pass keeps normalized keys pairwise distinct. -/
theorem reconcile_db_nodup (R : Nat) (valid : List (String × ValidatedDetails))
    (db : List HealthParameter) (h : (db.map nname).Nodup) :
    (((reconcile R valid db).cur ++ (reconcile R valid db).inserted).map nname).Nodup := by
  have := (reconcile_stInv R valid db h).1
  rwa [stNames, ← List.map_append] at this

/-! ### Mirror document lemmas -/

theorem getLast?_mem_of_eq_some {l : List α} {a : α} (h : l.getLast? = some a) :
    a ∈ l := by
  obtain ⟨hne, rfl⟩ := List.mem_getLast?_eq_getLast (l := l) (x := a)
    (by simp [Option.mem_def, h])
  exact List.getLast_mem hne

theorem length_le_one_mem_eq {l : List α} (h : l.length ≤ 1) {a b : α}
    (ha : a ∈ l) (hb : b ∈ l) : a = b := by
  cases l with
  | nil => cases ha
  | cons x xs =>
    cases xs with
    | nil =>
      rw [List.mem_singleton] at ha hb
      rw [ha, hb]
    | cons y ys => simp at h

/-- In a list whose image under `f` has no duplicates, at most one element
can satisfy a predicate that pins the `f`-image to a single key. -/
theorem filter_len_le_one_of_nodup_map {α β : Type} [DecidableEq β]
    (l : List α) (f : α → β) (pred : α → Bool) (k : β)
    (h : (l.map f).Nodup) (hpred : ∀ x, pred x = true → f x = k) :
    (l.filter pred).length ≤ 1 := by
  induction l with
  | nil => simp
  | cons a as ih =>
    rw [List.map_cons, List.nodup_cons] at h
    by_cases hp : pred a = true
    · rw [List.filter_cons_of_pos hp]
      have : as.filter pred = [] := by
        rw [List.filter_eq_nil_iff]
        intro b hb hpb
        apply h.1
        rw [List.mem_map]
        exact ⟨b, hb, by rw [hpred b hpb, hpred a hp]⟩
      rw [this]
      simp
    · rw [List.filter_cons_of_neg hp]
      exact ih h.2

theorem normMapLookup_some (l : List HealthParameter) (k : String)
    (p : HealthParameter) (h : normMapLookup l k = some p) :
    p ∈ l ∧ nname p = k := by
  have hp := getLast?_mem_of_eq_some h
  rw [List.mem_filter] at hp
  exact ⟨hp.1, beq_iff_eq.mp hp.2⟩

theorem normMapLookup_none (l : List HealthParameter) (k : String)
    (h : normMapLookup l k = none) :
    ∀ p ∈ l, nname p ≠ k := by
  intro p hp hk
  rw [normMapLookup, List.getLast?_eq_none_iff, List.filter_eq_nil_iff] at h
  exact h p hp (by simpa using hk)

/-- The mirror status string of one validated name is `"approved"` exactly
when the current store (updated rows plus freshly inserted ones) holds an
approved record under that name's normalized key — assuming the preloaded
keys were pairwise distinct and remembering that inserted rows are always
pending. -/
theorem mirrorStatus_spec (cur inserted : List HealthParameter) (vn : String)
    (hND : (cur.map nname).Nodup)
    (hins : ∀ p ∈ inserted, p.status = HPStatus.pending) :
    (mirrorStatus cur vn = "approved" ∨ mirrorStatus cur vn = "pending") ∧
    (mirrorStatus cur vn = "approved" ↔
      ∃ p ∈ cur ++ inserted, nname p = normalize_parameter_name vn ∧
        p.status = HPStatus.approved) := by
  cases hlook : normMapLookup cur (normalize_parameter_name vn) with
  | none =>
    refine ⟨Or.inr (by simp [mirrorStatus, hlook]), ?_⟩
    rw [mirrorStatus, hlook]
    constructor
    · intro h; exact absurd h (by decide)
    · rintro ⟨p, hp, hk, hst⟩
      rcases List.mem_append.mp hp with hp | hp
      · exact absurd hk (normMapLookup_none cur _ hlook p hp)
      · rw [hins p hp] at hst; cases hst
  | some q =>
    obtain ⟨hqmem, hqk⟩ := normMapLookup_some cur _ q hlook
    by_cases hqs : q.status = HPStatus.approved
    · refine ⟨Or.inl (by simp [mirrorStatus, hlook, hqs]), ?_⟩
      simp only [mirrorStatus, hlook, hqs]
      constructor
      · intro _
        exact ⟨q, List.mem_append.mpr (Or.inl hqmem), hqk, hqs⟩
      · intro _; simp
    · have hps : mirrorStatus cur vn = "pending" := by
        simp only [mirrorStatus, hlook]
        rw [if_neg (by simpa using hqs)]
      refine ⟨Or.inr hps, ?_⟩
      rw [hps]
      constructor
      · intro h; exact absurd h (by decide)
      · rintro ⟨p, hp, hk, hst⟩
        rcases List.mem_append.mp hp with hp | hp
        · have hple : (cur.filter (fun r => nname r == normalize_parameter_name vn)).length ≤ 1 :=
            filter_len_le_one_of_nodup_map cur nname _ _ hND
              (fun x hx => beq_iff_eq.mp hx)
          have hqin : q ∈ cur.filter (fun r => nname r == normalize_parameter_name vn) :=
            getLast?_mem_of_eq_some hlook
          have hpin : p ∈ cur.filter (fun r => nname r == normalize_parameter_name vn) := by
            rw [List.mem_filter]
            exact ⟨hp, by simpa using hk⟩
          have : q = p := length_le_one_mem_eq hple hqin hpin
          rw [this] at hqs
          exact absurd hst hqs
        · rw [hins p hp] at hst; cases hst

/-! ### Store-level lemmas about one endpoint call -/

/-- One call of the endpoint keeps normalized keys pairwise distinct in
the durable store. -/
theorem extract_db_nodup (reports : List Report) (rid : String)
    (extracted : List (String × ScanDetails))
    (valid : List (String × ValidatedDetails)) (db : List HealthParameter)
    (mirror : List (String × List (String × String)))
    (h : (db.map nname).Nodup) :
    (((extract_parameters reports rid extracted valid db mirror).db).map nname).Nodup := by
  cases hfind : reports.find? (fun r => r.report_unique_id == rid) with
  | none => simpa [extract_parameters, hfind] using h
  | some rep =>
    by_cases hne : extracted.isEmpty
    · simpa [extract_parameters, hfind, hne] using h
    · by_cases hac : alreadyCheck rep.id valid db
      · simpa [extract_parameters, hfind, hne, hac] using h
      · have := reconcile_db_nodup rep.id valid db h
        simpa [extract_parameters, hfind, hne, hac] using this

/-- Inputs of one reconciliation pass: the report table, the requested
external id, the scanner output and the oracle output. -/
structure PassInput where
  reports : List Report
  rid : String
  extracted : List (String × ScanDetails)
  valid : List (String × ValidatedDetails)

/-- The durable store obtained by running a sequence of sequential
reconciliation passes, starting from the empty store. -/
def runPasses (passes : List PassInput) : List HealthParameter :=
  passes.foldl
    (fun db pi => (extract_parameters pi.reports pi.rid pi.extracted pi.valid db []).db) []

theorem runPasses_nodup (passes : List PassInput) :
    ((runPasses passes).map nname).Nodup := by
  rw [runPasses]
  generalize hdb : ([] : List HealthParameter) = db
  have h : (db.map nname).Nodup := by rw [← hdb]; simp
  clear hdb
  induction passes generalizing db with
  | nil => simpa using h
  | cons pi ps ih =>
    rw [List.foldl_cons]
    exact ih _ (extract_db_nodup pi.reports pi.rid pi.extracted pi.valid db [] h)

/-! ### Scanner dictionary lemmas -/

theorem dictInsert_any (l : List (String × ScanDetails)) (k' : String)
    (v : ScanDetails) (k : String) :
    (dictInsert l k' v).any (fun e => e.1 == k) =
      (l.any (fun e => e.1 == k) || (k' == k)) := by
  rw [dictInsert]
  by_cases h : l.any (fun e => e.1 == k')
  · rw [if_pos h]
    have hmap : ∀ e : String × ScanDetails,
        ((if e.1 == k' then (k', v) else e).1 == k) = (e.1 == k) := by
      intro e
      by_cases he : e.1 == k'
      · rw [if_pos he]
        have : e.1 = k' := beq_iff_eq.mp he
        rw [this]
      · rw [if_neg he]
    by_cases hk : k' == k
    · have hk' : k' = k := beq_iff_eq.mp hk
      rw [List.any_eq_true] at h
      obtain ⟨e, he, hek⟩ := h
      have : l.any (fun e => e.1 == k) = true := by
        rw [List.any_eq_true]
        exact ⟨e, he, by rw [← hk']; exact hek⟩
      rw [this]
      simp only [Bool.true_or]
      rw [List.any_map, List.any_eq_true]
      refine ⟨e, he, ?_⟩
      simp only [Function.comp]
      rw [hmap e]
      rw [← hk']
      exact hek
    · simp only [hk, Bool.or_false]
      rw [List.any_map]
      have hfun : ((fun e : String × ScanDetails => e.1 == k) ∘
          (fun e : String × ScanDetails => if e.1 == k' then (k', v) else e)) =
          (fun e : String × ScanDetails => e.1 == k) := by
        funext e
        simpa [Function.comp] using hmap e
      rw [hfun]
  · rw [if_neg h]
    rw [List.any_append]
    simp

theorem filterFold_any (ms : List (String × String × String))
    (acc : List (String × ScanDetails)) (k : String) :
    ((ms.foldl filterStep acc).any (fun e => e.1 == k) = true) ↔
      (acc.any (fun e => e.1 == k) = true ∨
        ∃ m ∈ ms,
          is_valid_parameter_name (pyLower (stripName m.1)) = true ∧
          (m.2.1 == "") = false ∧ (m.2.2 == "") = false ∧
          normalize_parameter_name (pyLower (stripName m.1)) = k) := by
  induction ms generalizing acc with
  | nil => simp
  | cons m ms ih =>
    rw [List.foldl_cons]
    rw [ih (filterStep acc m)]
    constructor
    · rintro (hacc | ⟨m', hm', hrest⟩)
      · rw [filterStep] at hacc
        by_cases hv : is_valid_parameter_name (pyLower (stripName m.1))
        · by_cases hval : (!(m.2.1 == "") && !(m.2.2 == "")) = true
          · rw [if_neg (by simp [hv]), if_pos hval] at hacc
            rw [dictInsert_any] at hacc
            rcases Bool.or_eq_true _ _ |>.mp hacc with hacc | hkk
            · exact Or.inl hacc
            · right
              refine ⟨m, List.mem_cons_self m ms, hv, ?_, ?_,
                beq_iff_eq.mp hkk⟩
              · rcases Bool.and_eq_true _ _ |>.mp hval with ⟨h1, -⟩
                simpa using h1
              · rcases Bool.and_eq_true _ _ |>.mp hval with ⟨-, h2⟩
                simpa using h2
          · rw [if_neg (by simp [hv]), if_neg hval] at hacc
            exact Or.inl hacc
        · rw [if_pos (by simpa using hv)] at hacc
          exact Or.inl hacc
      · exact Or.inr ⟨m', List.mem_cons_of_mem m hm', hrest⟩
    · rintro (hacc | ⟨m', hm', hv, h1, h2, hk⟩)
      · left
        rw [filterStep]
        by_cases hv : is_valid_parameter_name (pyLower (stripName m.1))
        · by_cases hval : (!(m.2.1 == "") && !(m.2.2 == "")) = true
          · rw [if_neg (by simp [hv]), if_pos hval, dictInsert_any, hacc]
            simp
          · rw [if_neg (by simp [hv]), if_neg hval]
            exact hacc
        · rw [if_pos (by simpa using hv)]
          exact hacc
      · rcases List.mem_cons.mp hm' with rfl | hmem
        · left
          rw [filterStep]
          rw [if_neg (by simp [hv]), if_pos (by simp [h1, h2]), dictInsert_any, hk]
          simp
        · exact Or.inr ⟨m', hmem, hv, h1, h2, hk⟩

/-- Unfolding of the scanner's acceptance predicate into the two clauses
of the specification. -/
theorem is_valid_iff (s : String) :
    is_valid_parameter_name s = true ↔
      2 ≤ (pySplit s).length ∧
      2 * ((pySplit s).filter (fun w => disqualifiers.contains (pyLower w))).length <
        (pySplit s).length := by
  rw [is_valid_parameter_name]
  by_cases h : (pySplit s).length < 2
  · simp only [h, if_true]
    constructor
    · intro hf; cases hf
    · rintro ⟨h2, -⟩; omega
  · simp only [h, if_false]
    rw [decide_eq_true_iff]
    constructor
    · intro hlt; exact ⟨by omega, hlt⟩
    · rintro ⟨-, hlt⟩; exact hlt

/-! ### Concrete fixtures used by counterexamples and witnesses -/

/-- A pending record for `Cholesterol - Total` on report 1. -/
def recPending1 : HealthParameter :=
  ⟨1, 1, "Cholesterol - Total", some "289", some "mg/dL", none, none,
   HPStatus.pending, none, none, none⟩

/-- A rejected record for `Cholesterol - Total` attached to report 2. -/
def recRejected2 : HealthParameter :=
  ⟨1, 2, "Cholesterol - Total", some "289", some "mg/dL", none, none,
   HPStatus.rejected, none, none, none⟩

/-- A rejected record for `Cholesterol - Total` attached to report 1. -/
def recRejected1 : HealthParameter :=
  ⟨1, 1, "Cholesterol - Total", some "289", some "mg/dL", none, none,
   HPStatus.rejected, none, none, none⟩

/-- An approved record for `Cholesterol - Total` on report 1. -/
def recApproved1 : HealthParameter :=
  ⟨1, 1, "Cholesterol - Total", some "289", some "mg/dL", none, none,
   HPStatus.approved, some 5, some 1, none⟩

/-- The scanner output of the running example. -/
def sampleExtracted : List (String × ScanDetails) :=
  [("cholesteroltotal", ⟨"289", "mg/dL"⟩)]

/-- The oracle output of the running example. -/
def sampleValid : List (String × ValidatedDetails) :=
  [("Cholesterol - Total", ⟨some "289", some "mg/dL", none, none⟩)]

/-! ### C1 -/

/-- C1, counterexample: with one pending record for `Cholesterol - Total`
already attached to report 1, every validated key already has a record on
the report, so the claim's hypothesis holds and the call (first or
repeated — the state is unchanged) answers with the fixed
`Health Parameter Already Extracted` message; it does **not** return the
current status partition, which here would be
`approved = []`, `pending = ["Cholesterol - Total"]`. -/
theorem C1_counterexample :
    (extract_parameters [⟨1, 1, "r1"⟩] "r1" sampleExtracted sampleValid
        [recPending1] []).result = ExtractResult.alreadyExtracted ∧
    (extract_parameters [⟨1, 1, "r1"⟩] "r1" sampleExtracted sampleValid
        [recPending1] []).result ≠
      ExtractResult.complete [] ["Cholesterol - Total"] := by
  decide

/-- C1 (amended): when every validated name's normalized key already has a
record attached to the target report, the call performs zero durable-store
writes, leaves the durable store and the mirror store untouched, and
returns the fixed `Health Parameter Already Extracted` message rather than
the status partition; since nothing changes, a repeated invocation returns
exactly the same response. -/
theorem C1_fastpath_idempotent (reports : List Report) (rid : String)
    (rep : Report) (extracted : List (String × ScanDetails))
    (valid : List (String × ValidatedDetails)) (db : List HealthParameter)
    (mirror : List (String × List (String × String)))
    (hfind : reports.find? (fun r => r.report_unique_id == rid) = some rep)
    (hne : extracted.isEmpty = false)
    (hsub : alreadyCheck rep.id valid db = true) :
    extract_parameters reports rid extracted valid db mirror =
      ⟨ExtractResult.alreadyExtracted, db, mirror, 0⟩ := by
  simp [extract_parameters, hfind, hne, hsub]

/-- C1, witness: the fast path taken on the concrete one-record store. -/
theorem C1_fastpath_witness :
    extract_parameters [⟨1, 1, "r1"⟩] "r1" sampleExtracted sampleValid
        [recPending1] [] =
      ⟨ExtractResult.alreadyExtracted, [recPending1], [], 0⟩ :=
  C1_fastpath_idempotent [⟨1, 1, "r1"⟩] "r1" ⟨1, 1, "r1"⟩ sampleExtracted
    sampleValid [recPending1] [] (by decide) (by decide) (by decide)

/-! ### C9 -/

/-- C9, counterexample: when the scanner extracted nothing, the endpoint
raises an `HTTPException` with status 400 — an error path, not a normal
empty result. -/
theorem C9_counterexample :
    isErrorResult (extract_parameters [⟨1, 1, "r9"⟩] "r9" [] [] [] []).result = true ∧
    (extract_parameters [⟨1, 1, "r9"⟩] "r9" [] [] [] []).result =
      ExtractResult.noParameters := by
  decide

/-- C9 (amended): for every report whose extracted text yields zero scanner
candidates, the call aborts with the 400 `No health parameters extracted`
error (an exception path), performing no durable-store or mirror mutation. -/
theorem C9_no_candidates_error (reports : List Report) (rid : String)
    (rep : Report) (valid : List (String × ValidatedDetails))
    (db : List HealthParameter) (mirror : List (String × List (String × String)))
    (hfind : reports.find? (fun r => r.report_unique_id == rid) = some rep) :
    extract_parameters reports rid [] valid db mirror =
      ⟨ExtractResult.noParameters, db, mirror, 0⟩ ∧
    isErrorResult ExtractResult.noParameters = true := by
  refine ⟨?_, rfl⟩
  simp [extract_parameters, hfind]

/-- C9, witness: a concrete empty extraction. -/
theorem C9_no_candidates_witness :
    extract_parameters [⟨1, 1, "r9"⟩] "r9" [] [] [] [] =
      ⟨ExtractResult.noParameters, [], [], 0⟩ ∧
    isErrorResult ExtractResult.noParameters = true :=
  C9_no_candidates_error [⟨1, 1, "r9"⟩] "r9" ⟨1, 1, "r9"⟩ [] [] [] (by decide)

/-! ### C3 -/

/-- C3, counterexample: the only record for key `cholesteroltotal` is
rejected and attached to report 2; re-extraction on report 1 with that
validated name leaves the store byte-for-byte unchanged — the rejected
record is *not* reassigned to report 1 (and no duplicate is created
either). -/
theorem C3_counterexample :
    (extract_parameters [⟨1, 1, "r1"⟩, ⟨2, 1, "r2"⟩] "r1" sampleExtracted
        sampleValid [recRejected2] []).db = [recRejected2] ∧
    recRejected2.report_id = 2 ∧ recRejected2.status = HPStatus.rejected := by
  decide

/-- C3 (amended): reconciliation never touches a record attached to a
different report — a rejected record on another report stays exactly as it
is — and it never inserts a row whose validated key collides with any
existing record, so no duplicate is created either; the cross-report
"reassignment" described by the claim does not happen. -/
theorem C3_no_cross_report_reassignment :
    (∀ (reports : List Report) (rid : String) (rep : Report)
        (extracted : List (String × ScanDetails))
        (valid : List (String × ValidatedDetails)) (db : List HealthParameter)
        (mirror : List (String × List (String × String))) (i : Nat)
        (p : HealthParameter),
      reports.find? (fun r => r.report_unique_id == rid) = some rep →
      db[i]? = some p → p.report_id ≠ rep.id →
      (extract_parameters reports rid extracted valid db mirror).db[i]? = some p) ∧
    (∀ (R : Nat) (valid : List (String × ValidatedDetails))
        (db : List HealthParameter) (pnew : HealthParameter),
      pnew ∈ (reconcile R valid db).inserted →
      ∀ q ∈ db, nname q ≠ nname pnew) := by
  constructor
  · intro reports rid rep extracted valid db mirror i p hfind hget hO
    by_cases hne : extracted.isEmpty
    · simpa [extract_parameters, hfind, hne] using hget
    · by_cases hac : alreadyCheck rep.id valid db
      · simpa [extract_parameters, hfind, hne, hac] using hget
      · have hlen : i < db.length := by
          by_contra hlt
          rw [List.getElem?_eq_none (by omega)] at hget
          cases hget
        have hcond : ¬ (p.status = HPStatus.rejected ∧
            ∃ v ∈ valid, existingIdxForReport db rep.id
              (normalize_parameter_name v.1) = some i) := by
          rintro ⟨-, v, -, hidx⟩
          obtain ⟨p', hp', hrep, -⟩ := existingIdxForReport_sound db rep.id _ i hidx
          rw [hget] at hp'
          injection hp' with hp'
          rw [← hp'] at hrep
          exact hO hrep
        have hfold := reconFold_cur_get rep.id db (maxId db + 1) valid
          ⟨db, [], initAllSet db, 0⟩ i p hget
        rw [if_neg hcond] at hfold
        have hl : i < (reconcile rep.id valid db).cur.length := by
          rw [reconcile_cur_length]
          exact hlen
        simp only [extract_parameters, hfind, hne, hac, Bool.false_eq_true, if_false]
        rw [List.getElem?_append_left hl, reconcile]
        exact hfold
  · intro R valid db pnew hins q hq
    obtain ⟨v, -, ⟨n, rfl⟩, hfresh⟩ := reconcile_inserted_mem R valid db pnew hins
    rw [nname_mkNewParam]
    exact hfresh q hq

/-- A pending record for `Triglycerides` attached to report 2. -/
def recTrig2 : HealthParameter :=
  ⟨1, 2, "Triglycerides", some "150", some "mg/dL", none, none,
   HPStatus.pending, none, none, none⟩

/-- C3, witness: on a store holding only the rejected record of report 2,
the record is untouched by a pass for report 1; and on a store holding a
`Triglycerides` record, the row inserted for `Cholesterol - Total` shares
its normalized key with no existing record. -/
theorem C3_no_cross_report_witness :
    (extract_parameters [⟨1, 1, "r1"⟩, ⟨2, 1, "r2"⟩] "r1" sampleExtracted
        sampleValid [recRejected2] []).db[0]? = some recRejected2 ∧
    (∀ q ∈ [recTrig2], nname q ≠
        nname (mkNewParam 1 2 ("Cholesterol - Total",
          ⟨some "289", some "mg/dL", none, none⟩))) := by
  constructor
  · exact C3_no_cross_report_reassignment.1 [⟨1, 1, "r1"⟩, ⟨2, 1, "r2"⟩] "r1"
      ⟨1, 1, "r1"⟩ sampleExtracted sampleValid [recRejected2] [] 0 recRejected2
      (by decide) (by decide) (by decide)
  · exact C3_no_cross_report_reassignment.2 1 sampleValid [recTrig2]
      (mkNewParam 1 2 ("Cholesterol - Total", ⟨some "289", some "mg/dL", none, none⟩))
      (by decide)

/-! ### C4 -/

/-- C4, counterexample: report 1 holds a rejected record for
`cholesteroltotal` and the validated set normalizes exactly to that key,
so the short-circuit fires: the call answers `Already Extracted` and the
record stays `rejected` — it is *not* flipped to `pending` as the claim
requires. -/
theorem C4_counterexample :
    (extract_parameters [⟨1, 1, "r1"⟩] "r1" sampleExtracted sampleValid
        [recRejected1] []).result = ExtractResult.alreadyExtracted ∧
    (extract_parameters [⟨1, 1, "r1"⟩] "r1" sampleExtracted sampleValid
        [recRejected1] []).db = [recRejected1] ∧
    recRejected1.status = HPStatus.rejected ∧
    HPStatus.rejected ≠ HPStatus.pending := by
  decide

/-- C4 (amended): provided the pass is not short-circuited (some validated
key has no record on the report yet), a rejected record of the target
report whose key is validated is flipped to `pending` and stays attached
to the report; and a record of the report whose status is `pending` or
`approved` is never modified by reconciliation, on any path. -/
theorem C4_rejected_to_pending :
    (∀ (reports : List Report) (rid : String) (rep : Report)
        (extracted : List (String × ScanDetails))
        (valid : List (String × ValidatedDetails)) (db : List HealthParameter)
        (mirror : List (String × List (String × String))) (i : Nat)
        (p : HealthParameter),
      reports.find? (fun r => r.report_unique_id == rid) = some rep →
      extracted.isEmpty = false →
      alreadyCheck rep.id valid db = false →
      db[i]? = some p →
      p.status = HPStatus.rejected →
      existingIdxForReport db rep.id (nname p) = some i →
      (∃ v ∈ valid, normalize_parameter_name v.1 = nname p) →
      (extract_parameters reports rid extracted valid db mirror).db[i]? =
        some { p with status := HPStatus.pending, report_id := rep.id }) ∧
    (∀ (reports : List Report) (rid : String)
        (extracted : List (String × ScanDetails))
        (valid : List (String × ValidatedDetails)) (db : List HealthParameter)
        (mirror : List (String × List (String × String))) (i : Nat)
        (p : HealthParameter),
      db[i]? = some p → p.status ≠ HPStatus.rejected →
      (extract_parameters reports rid extracted valid db mirror).db[i]? = some p) := by
  constructor
  · intro reports rid rep extracted valid db mirror i p hfind hne hac hget hrej hidx hval
    have hlen : i < db.length := by
      by_contra hlt
      rw [List.getElem?_eq_none (by omega)] at hget
      cases hget
    have hcond : p.status = HPStatus.rejected ∧
        ∃ v ∈ valid, existingIdxForReport db rep.id
          (normalize_parameter_name v.1) = some i := by
      obtain ⟨v, hv, hk⟩ := hval
      exact ⟨hrej, v, hv, by rw [hk]; exact hidx⟩
    have hfold := reconFold_cur_get rep.id db (maxId db + 1) valid
      ⟨db, [], initAllSet db, 0⟩ i p hget
    rw [if_pos hcond] at hfold
    have hl : i < (reconcile rep.id valid db).cur.length := by
      rw [reconcile_cur_length]
      exact hlen
    simp only [extract_parameters, hfind, hne, hac, Bool.false_eq_true, if_false]
    rw [List.getElem?_append_left hl, reconcile]
    exact hfold
  · intro reports rid extracted valid db mirror i p hget hnr
    cases hfind : reports.find? (fun r => r.report_unique_id == rid) with
    | none => simpa [extract_parameters, hfind] using hget
    | some rep =>
      by_cases hne : extracted.isEmpty
      · simpa [extract_parameters, hfind, hne] using hget
      · by_cases hac : alreadyCheck rep.id valid db
        · simpa [extract_parameters, hfind, hne, hac] using hget
        · have hlen : i < db.length := by
            by_contra hlt
            rw [List.getElem?_eq_none (by omega)] at hget
            cases hget
          have hfold := reconFold_cur_get rep.id db (maxId db + 1) valid
            ⟨db, [], initAllSet db, 0⟩ i p hget
          rw [if_neg (fun h => hnr h.1)] at hfold
          have hl : i < (reconcile rep.id valid db).cur.length := by
            rw [reconcile_cur_length]
            exact hlen
          simp only [extract_parameters, hfind, hne, hac, Bool.false_eq_true, if_false]
          rw [List.getElem?_append_left hl, reconcile]
          exact hfold

/-- C4, witness: report 1 holds the rejected record plus the oracle also
validates a second, unseen name (`Triglycerides`), so the pass is not
short-circuited; the rejected record is flipped to pending, while a
pending record on an untouched store position stays as it is. -/
theorem C4_rejected_to_pending_witness :
    (extract_parameters [⟨1, 1, "r1"⟩] "r1" sampleExtracted
        (sampleValid ++ [("Triglycerides", ⟨some "150", some "mg/dL", none, none⟩)])
        [recRejected1] []).db[0]? =
      some { recRejected1 with status := HPStatus.pending, report_id := 1 } ∧
    (extract_parameters [⟨1, 1, "r1"⟩] "r1" sampleExtracted sampleValid
        [recPending1] []).db[0]? = some recPending1 := by
  constructor
  · exact C4_rejected_to_pending.1 [⟨1, 1, "r1"⟩] "r1" ⟨1, 1, "r1"⟩ sampleExtracted
      (sampleValid ++ [("Triglycerides", ⟨some "150", some "mg/dL", none, none⟩)])
      [recRejected1] [] 0 recRejected1 (by decide) (by decide) (by decide)
      (by decide) (by decide) (by decide) ⟨("Cholesterol - Total",
        ⟨some "289", some "mg/dL", none, none⟩), by decide, by decide⟩
  · exact C4_rejected_to_pending.2 [⟨1, 1, "r1"⟩] "r1" sampleExtracted sampleValid
      [recPending1] [] 0 recPending1 (by decide) (by decide)

/-! ### C2 -/

/-- C2: (1) every row the Reconciliation Engine inserts is attached to the
current report with status `pending`, carries the oracle's (stripped)
canonical display name and the scanner's verbatim value/unit, and is
inserted only for a validated name whose normalized key has no record in
any report; (2) after any sequence of sequential reconciliation passes from
the empty store, at most one non-rejected record exists per normalized key
across all reports. -/
theorem C2_global_dedup_insert :
    (∀ (R : Nat) (valid : List (String × ValidatedDetails))
        (db : List HealthParameter) (p : HealthParameter),
      p ∈ (reconcile R valid db).inserted →
        p.status = HPStatus.pending ∧ p.report_id = R ∧
        ∃ v ∈ valid, p.parameter_name = stripName v.1 ∧ p.value = v.2.value ∧
          p.unit = v.2.unit ∧
          ∀ q ∈ db, nname q ≠ normalize_parameter_name v.1) ∧
    (∀ (passes : List PassInput) (k : String),
      ((runPasses passes).filter
        (fun p => !(p.status == HPStatus.rejected) && (nname p == k))).length ≤ 1) := by
  constructor
  · intro R valid db p hp
    obtain ⟨v, hv, ⟨n, rfl⟩, hfresh⟩ := reconcile_inserted_mem R valid db p hp
    exact ⟨rfl, rfl, v, hv, rfl, rfl, rfl, hfresh⟩
  · intro passes k
    exact filter_len_le_one_of_nodup_map (runPasses passes) nname _ k
      (runPasses_nodup passes)
      (fun x hx => beq_iff_eq.mp ((Bool.and_eq_true _ _).mp hx).2)

/-- C2, witness: the spec scenario — the oracle validates one candidate
`cholesteroltotal` as `Cholesterol - Total` against an empty store, and the
engine persists exactly the new pending record with that display name; the
pass-sequence bound is instantiated at that single pass. -/
theorem C2_global_dedup_witness :
    ((mkNewParam 1 1 ("Cholesterol - Total", ⟨some "289", some "mg/dL", none, none⟩)).status =
        HPStatus.pending ∧
      (mkNewParam 1 1 ("Cholesterol - Total", ⟨some "289", some "mg/dL", none, none⟩)).report_id = 1 ∧
      ∃ v ∈ sampleValid,
        (mkNewParam 1 1 ("Cholesterol - Total", ⟨some "289", some "mg/dL", none, none⟩)).parameter_name =
          stripName v.1 ∧
        (mkNewParam 1 1 ("Cholesterol - Total", ⟨some "289", some "mg/dL", none, none⟩)).value = v.2.value ∧
        (mkNewParam 1 1 ("Cholesterol - Total", ⟨some "289", some "mg/dL", none, none⟩)).unit = v.2.unit ∧
        ∀ q ∈ ([] : List HealthParameter), nname q ≠ normalize_parameter_name v.1) ∧
    ((runPasses [⟨[⟨1, 1, "r1"⟩], "r1", sampleExtracted, sampleValid⟩]).filter
      (fun p => !(p.status == HPStatus.rejected) && (nname p == "cholesteroltotal"))).length ≤ 1 :=
  ⟨C2_global_dedup_insert.1 1 sampleValid []
      (mkNewParam 1 1 ("Cholesterol - Total", ⟨some "289", some "mg/dL", none, none⟩))
      (by decide),
   C2_global_dedup_insert.2 [⟨[⟨1, 1, "r1"⟩], "r1", sampleExtracted, sampleValid⟩]
      "cholesteroltotal"⟩

/-! ### C5 -/

/-- C5, counterexample: a successful pass can leave the mirror stale.  The
store holds an approved record for `Cholesterol - Total` on report 1 and
the mirror still carries the pair from an earlier pass with status
`"pending"`; the next call for the same content short-circuits (a
successful, 200 response), skips the mirror write, and afterwards the
mirror pair says `"pending"` although the store's current record for that
key is `approved` — the claimed biconditional fails. -/
theorem C5_counterexample :
    (extract_parameters [⟨1, 1, "r1"⟩] "r1" sampleExtracted sampleValid
        [recApproved1] [("r1", [("Cholesterol - Total", "pending")])]).result =
      ExtractResult.alreadyExtracted ∧
    mirrorGet (extract_parameters [⟨1, 1, "r1"⟩] "r1" sampleExtracted sampleValid
        [recApproved1] [("r1", [("Cholesterol - Total", "pending")])]).mirror "r1" =
      some [("Cholesterol - Total", "pending")] ∧
    (extract_parameters [⟨1, 1, "r1"⟩] "r1" sampleExtracted sampleValid
        [recApproved1] [("r1", [("Cholesterol - Total", "pending")])]).db =
      [recApproved1] ∧
    recApproved1.status = HPStatus.approved ∧
    nname recApproved1 = normalize_parameter_name "Cholesterol - Total" := by
  decide

/-- C5 (amended): after every pass that reaches the mirror write (the call
is not short-circuited and does not fail), the mirror document keyed by the
report's external identifier contains exactly one pair per validated name,
in order, and a pair's status is `"approved"` exactly when the durable
store's current record for that name's normalized key is approved (and
`"pending"` otherwise); the document is fully overwritten.  The store's
normalized keys are assumed pairwise distinct — the invariant the pipeline
itself maintains. -/
theorem C5_mirror_consistency (reports : List Report) (rid : String)
    (rep : Report) (extracted : List (String × ScanDetails))
    (valid : List (String × ValidatedDetails)) (db : List HealthParameter)
    (mirror : List (String × List (String × String)))
    (hfind : reports.find? (fun r => r.report_unique_id == rid) = some rep)
    (hne : extracted.isEmpty = false)
    (hns : alreadyCheck rep.id valid db = false)
    (hnd : (db.map nname).Nodup) :
    ∃ pairs,
      mirrorGet (extract_parameters reports rid extracted valid db mirror).mirror
        rid = some pairs ∧
      pairs.map (fun pr => pr.1) = valid.map (fun v => v.1) ∧
      ∀ pr ∈ pairs,
        (pr.2 = "approved" ∨ pr.2 = "pending") ∧
        (pr.2 = "approved" ↔
          ∃ p ∈ (extract_parameters reports rid extracted valid db mirror).db,
            nname p = normalize_parameter_name pr.1 ∧
            p.status = HPStatus.approved) := by
  have hcurnd : ((reconcile rep.id valid db).cur.map nname).Nodup := by
    rw [map_nname_eq, reconcile_cur_map, ← map_nname_eq]
    exact hnd
  refine ⟨mirrorPairs (reconcile rep.id valid db).cur (valid.map (fun v => v.1)),
    ?_, ?_, ?_⟩
  · simp [extract_parameters, hfind, hne, hns, mirrorGet]
  · rw [mirrorPairs, List.map_map]
    simp
  · intro pr hpr
    rw [mirrorPairs, List.mem_map] at hpr
    obtain ⟨vn, -, rfl⟩ := hpr
    have hdb : (extract_parameters reports rid extracted valid db mirror).db =
        (reconcile rep.id valid db).cur ++ (reconcile rep.id valid db).inserted := by
      simp [extract_parameters, hfind, hne, hns]
    have hspec := mirrorStatus_spec (reconcile rep.id valid db).cur
      (reconcile rep.id valid db).inserted vn hcurnd
      (reconcile_inserted_pending rep.id valid db)
    rw [← hdb] at hspec
    exact hspec

/-- C5, witness: a full pass on a store holding only the other report's
`Triglycerides` record; the theorem is instantiated to give the concrete
mirror document. -/
theorem C5_mirror_consistency_witness :
    ∃ pairs,
      mirrorGet (extract_parameters [⟨1, 1, "r1"⟩] "r1" sampleExtracted sampleValid
        [recTrig2] []).mirror "r1" = some pairs ∧
      pairs.map (fun pr => pr.1) = sampleValid.map (fun v => v.1) ∧
      ∀ pr ∈ pairs,
        (pr.2 = "approved" ∨ pr.2 = "pending") ∧
        (pr.2 = "approved" ↔
          ∃ p ∈ (extract_parameters [⟨1, 1, "r1"⟩] "r1" sampleExtracted sampleValid
            [recTrig2] []).db,
            nname p = normalize_parameter_name pr.1 ∧
            p.status = HPStatus.approved) :=
  C5_mirror_consistency [⟨1, 1, "r1"⟩] "r1" ⟨1, 1, "r1"⟩ sampleExtracted
    sampleValid [recTrig2] [] (by decide) (by decide) (by decide) (by decide)

/-! ### C6 -/

/-- C6, evaluation at the failing input: the normalizer itself behaves as
claimed (`Cholesterol - Total` and `Cholesterol Total` collide on
`cholesteroltotal`), but the background task's duplicate check compares
the stored display name `"Cholesterol - Total"` with the extracted key
`"cholesteroltotal"` by raw string equality, misses the match, and inserts
a second record for the very same normalized key — the route-side engine,
which does compare normalized keys, inserts nothing on the same input. -/
theorem C6_worker_raw_comparison :
    normalize_parameter_name "Cholesterol - Total" = "cholesteroltotal" ∧
    normalize_parameter_name "Cholesterol Total" =
      normalize_parameter_name "Cholesterol - Total" ∧
    (extract_pdf_task_params [recPending1] 1 2 sampleExtracted).map nname =
      ["cholesteroltotal", "cholesteroltotal"] ∧
    (reconcile 1 sampleValid [recPending1]).inserted = [] := by
  decide

/-! ### C7 -/

/-- C7: a normalized key appears in the scan output exactly when some
regex match has a display name splitting into at least two words with
fewer than half of them in the fixed generic-adjective set, carries a
non-empty value and a non-empty unit, and normalizes to that key; on the
spec's example text the scanner yields exactly the one candidate
`cholesteroltotal` with verbatim value `289` and unit `mg/dL`, while
`high normal range` fails the word filter. -/
theorem C7_scanner_filter :
    (∀ (text k : String),
      ((filter_health_parameters_from_text text).any (fun e => e.1 == k)) = true ↔
        ∃ m ∈ scanMatches text,
          2 ≤ (pySplit (pyLower (stripName m.1))).length ∧
          2 * ((pySplit (pyLower (stripName m.1))).filter
                (fun w => disqualifiers.contains (pyLower w))).length <
            (pySplit (pyLower (stripName m.1))).length ∧
          m.2.1 ≠ "" ∧ m.2.2 ≠ "" ∧
          normalize_parameter_name (pyLower (stripName m.1)) = k) ∧
    filter_health_parameters_from_text
        "Cholesterol Total: 289 mg/dL high normal range" =
      [("cholesteroltotal", ⟨"289", "mg/dL"⟩)] ∧
    is_valid_parameter_name "high normal range" = false := by
  refine ⟨?_, by decide, by decide⟩
  intro text k
  rw [filter_health_parameters_from_text, filterFold_any]
  simp only [List.any_nil, Bool.false_eq_true, false_or]
  constructor
  · rintro ⟨m, hm, hv, h1, h2, hk⟩
    exact ⟨m, hm, ((is_valid_iff _).mp hv).1, ((is_valid_iff _).mp hv).2,
      beq_eq_false_iff_ne.mp h1, beq_eq_false_iff_ne.mp h2, hk⟩
  · rintro ⟨m, hm, hc1, hc2, h1, h2, hk⟩
    exact ⟨m, hm, (is_valid_iff _).mpr ⟨hc1, hc2⟩,
      beq_eq_false_iff_ne.mpr h1, beq_eq_false_iff_ne.mpr h2, hk⟩

/-! ### C8 -/

/-- C8: the oracle request payload is a function of the candidate names
and units alone — two extracted candidate sets that agree on names and
units produce identical payloads, whatever their raw measured values are;
values never enter the payload. -/
theorem C8_oracle_payload_noninterference (xs ys : List (String × ScanDetails))
    (h : xs.map (fun kd => (kd.1, kd.2.unit)) = ys.map (fun kd => (kd.1, kd.2.unit))) :
    params_for_validation xs = params_for_validation ys := by
  have hfun : ∀ l : List (String × ScanDetails), params_for_validation l =
      (l.map (fun kd => (kd.1, kd.2.unit))).map
        (fun nu => { name := nu.1, unit := nu.2 }) := by
    intro l
    rw [params_for_validation, List.map_map]
    rfl
  rw [hfun, hfun, h]

/-- C8, witness: two candidate sets differing only in the measured value
(289 against 999) produce the same oracle payload. -/
theorem C8_oracle_payload_witness :
    params_for_validation [("cholesteroltotal", ⟨"289", "mg/dL"⟩)] =
      params_for_validation [("cholesteroltotal", ⟨"999", "mg/dL"⟩)] :=
  C8_oracle_payload_noninterference
    [("cholesteroltotal", ⟨"289", "mg/dL"⟩)]
    [("cholesteroltotal", ⟨"999", "mg/dL"⟩)] (by decide)

/-! ### C10 -/

/-- C10: the admin endpoints apply the requested status with no
state-machine guard.  For any existing row (found by primary key, first
match), `approve_parameter` sets status `approved` with approver,
timestamp and remarks and `reject_parameter` sets status `rejected` with
timestamp and remarks — both regardless of the previous status and leaving
every other row unchanged; an unknown id yields the 404 error on both
endpoints with no state change. -/
theorem C10_admin_unconditional :
    (∀ (db : List HealthParameter) (pid adm now : Nat) (rem : Option String)
        (i : Nat) (p : HealthParameter),
      findIdxById db pid 0 = some i → db[i]? = some p →
      ∃ db', approve_parameter db pid adm now rem = some db' ∧
        db'[i]? = some
          { p with
            status := HPStatus.approved
            action_timestamp := some now
            approved_by := some adm
            remarks := rem } ∧
        db'.length = db.length ∧
        ∀ j, j ≠ i → db'[j]? = db[j]?) ∧
    (∀ (db : List HealthParameter) (pid now : Nat) (rem : Option String)
        (i : Nat) (p : HealthParameter),
      findIdxById db pid 0 = some i → db[i]? = some p →
      ∃ db', reject_parameter db pid now rem = some db' ∧
        db'[i]? = some
          { p with
            status := HPStatus.rejected
            action_timestamp := some now
            remarks := rem } ∧
        db'.length = db.length ∧
        ∀ j, j ≠ i → db'[j]? = db[j]?) ∧
    (∀ (db : List HealthParameter) (pid adm now : Nat) (rem : Option String),
      findIdxById db pid 0 = none →
      approve_parameter db pid adm now rem = none ∧
      reject_parameter db pid now rem = none) := by
  refine ⟨?_, ?_, ?_⟩
  · intro db pid adm now rem i p hidx hget
    refine ⟨modifyIdx db i (fun q =>
      { q with
        status := HPStatus.approved
        action_timestamp := some now
        approved_by := some adm
        remarks := rem }), ?_, ?_, modifyIdx_length db i _, ?_⟩
    · rw [approve_parameter, hidx]
    · rw [modifyIdx_get_self, hget]
      rfl
    · intro j hj
      exact modifyIdx_get_ne db i j _ (Ne.symm hj)
  · intro db pid now rem i p hidx hget
    refine ⟨modifyIdx db i (fun q =>
      { q with
        status := HPStatus.rejected
        action_timestamp := some now
        remarks := rem }), ?_, ?_, modifyIdx_length db i _, ?_⟩
    · rw [reject_parameter, hidx]
    · rw [modifyIdx_get_self, hget]
      rfl
    · intro j hj
      exact modifyIdx_get_ne db i j _ (Ne.symm hj)
  · intro db pid adm now rem hidx
    constructor
    · rw [approve_parameter, hidx]
    · rw [reject_parameter, hidx]

/-- C10, witness: approving a currently rejected record succeeds and
stamps the admin; rejecting a currently *approved* record also succeeds
(no guard); an unknown id 404s on both endpoints. -/
theorem C10_admin_witness :
    (∃ db', approve_parameter [recRejected1] 1 7 42 (some "ok") = some db' ∧
      db'[0]? = some
        { recRejected1 with
          status := HPStatus.approved
          action_timestamp := some 42
          approved_by := some 7
          remarks := some "ok" } ∧
      db'.length = [recRejected1].length ∧
      ∀ j, j ≠ 0 → db'[j]? = [recRejected1][j]?) ∧
    (∃ db', reject_parameter [recApproved1] 1 42 none = some db' ∧
      db'[0]? = some
        { recApproved1 with
          status := HPStatus.rejected
          action_timestamp := some 42
          remarks := none } ∧
      db'.length = [recApproved1].length ∧
      ∀ j, j ≠ 0 → db'[j]? = [recApproved1][j]?) ∧
    (approve_parameter [] 1 7 42 none = none ∧
      reject_parameter [] 1 42 none = none) :=
  ⟨C10_admin_unconditional.1 [recRejected1] 1 7 42 (some "ok") 0 recRejected1
      (by decide) (by decide),
   C10_admin_unconditional.2.1 [recApproved1] 1 42 none 0 recApproved1
      (by decide) (by decide),
   C10_admin_unconditional.2.2 [] 1 7 42 none (by decide)⟩

end Foxo
